import Mathlib

/-!
Verification development for the task-queue core of `whisper-rust-s2t`
(`src/queue.rs`).  The Rust code is shallowly embedded: pure fragments become
Lean functions, the Redis sorted set becomes an association list with the same
ordering semantics, machine floats become exact rationals with explicit
truncation where the code casts to integers, and fallible steps return
`Except`.
-/

namespace WhisperQueue

/-- `TaskType` from `queue.rs` (lines 39-43). -/
inductive TaskType where
  | Transcription
  | RiskAnalysis
deriving DecidableEq, Repr

/-- `TaskStatus` from `queue.rs` (lines 45-52). -/
inductive TaskStatus where
  | Pending
  | Processing
  | Completed
  | Failed
  | Cancelled
deriving DecidableEq, Repr

/-- `TaskResult` from `queue.rs` (lines 64-75).  Timestamps are modelled as
integer seconds; `progress` (an `f32` in the source) is modelled as an exact
rational; the opaque `result` payload is modelled as an opaque string. -/
structure TaskResult where
  id : String
  status : TaskStatus
  created_at : Int
  updated_at : Int
  started_at : Option Int
  completed_at : Option Int
  result : Option String
  error : Option String
  progress : ℚ
deriving DecidableEq, Repr

/-- `QueueStats` from `queue.rs` (lines 77-84). -/
structure QueueStats where
  pending_count : ℕ
  processing_count : ℕ
  completed_count : ℕ
  failed_count : ℕ
  total_tasks : ℕ
deriving DecidableEq, Repr

/-! ## Dynamic timeout (`process_transcription_task`, queue.rs lines 559-587)

The source reads `file_size_bytes` (u64, default 0) and `duration_seconds`
(f64, default 0.0) from the payload, converts the size to megabytes, and
builds the wait budget.  The `as u64` casts truncate a non-negative float
toward zero, i.e. take the floor. -/

/-- The timeout computation of `process_transcription_task`
(queue.rs lines 559-584), with the `unwrap_or` defaults applied to the
optional payload fields. -/
def max_wait_time (file_size_bytes : Option ℕ) (duration_seconds : Option ℚ) : ℕ :=
  let file_size : ℕ := file_size_bytes.getD 0
  let duration : ℚ := duration_seconds.getD 0
  let file_size_mb : ℚ := (file_size : ℚ) / (1024 * 1024)
  let estimated_duration_minutes : ℚ := duration / 60
  let t1 : ℕ := if 50 < file_size_mb then (⌊(file_size_mb / 50) * 60⌋).toNat else 0
  let t2 : ℕ := if 30 < estimated_duration_minutes then
      (⌊(estimated_duration_minutes / 30) * 120⌋).toNat else 0
  min (300 + t1 + t2) 1800

/-- The timeout formula exactly as the specification words it (for the
refinement comparison of claim C2): base 300 s, plus 60 s per 50 MB of input
beyond 50 MB, plus 120 s per 30 minutes of duration beyond 30 minutes,
capped at 1800 s. -/
def spec_timeout (file_size_bytes : Option ℕ) (duration_seconds : Option ℚ) : ℕ :=
  let file_size : ℕ := file_size_bytes.getD 0
  let duration : ℚ := duration_seconds.getD 0
  let file_size_mb : ℚ := (file_size : ℚ) / (1024 * 1024)
  let estimated_duration_minutes : ℚ := duration / 60
  let t1 : ℕ := if 50 < file_size_mb then (⌊((file_size_mb - 50) / 50) * 60⌋).toNat else 0
  let t2 : ℕ := if 30 < estimated_duration_minutes then
      (⌊((estimated_duration_minutes - 30) / 30) * 120⌋).toNat else 0
  min (300 + t1 + t2) 1800

/-! ## Auto-chain policy (`auto_submit_risk_analysis`, queue.rs lines 848-875)

The skip test is `text.trim().is_empty() || text.trim().len() < 10`.  Rust's
`str::trim` strips characters with the Unicode `White_Space` property from
both ends, and `str::len` is the UTF-8 byte length, so both are modelled
explicitly. -/

/-- Rust's `char::is_whitespace`: the Unicode `White_Space` property. -/
def rust_is_whitespace (c : Char) : Bool :=
  let n := c.toNat
  n == 0x09 || n == 0x0A || n == 0x0B || n == 0x0C || n == 0x0D || n == 0x20 ||
  n == 0x85 || n == 0xA0 || n == 0x1680 || (0x2000 ≤ n && n ≤ 0x200A) ||
  n == 0x2028 || n == 0x2029 || n == 0x202F || n == 0x205F || n == 0x3000

/-- Rust's `str::trim` on the character sequence of a string. -/
def rust_trim (l : List Char) : List Char :=
  ((l.dropWhile rust_is_whitespace).reverse.dropWhile rust_is_whitespace).reverse

/-- Number of bytes of the UTF-8 encoding of one character. -/
def rust_char_utf8_size (c : Char) : ℕ :=
  if c.toNat < 0x80 then 1 else if c.toNat < 0x800 then 2
  else if c.toNat < 0x10000 then 3 else 4

/-- Rust's `str::len`: the UTF-8 byte length. -/
def rust_utf8_len (l : List Char) : ℕ := (l.map rust_char_utf8_size).sum

/-- The payload fields of a transcription task that
`auto_submit_risk_analysis` reads from `original_payload`, plus the two
fields the timeout computation reads. -/
structure TranscriptionPayload where
  file_path : Option String
  backend : Option String
  language : Option String
  file_size_bytes : Option ℕ
  duration_seconds : Option ℚ
deriving DecidableEq, Repr

/-- The `risk_payload` JSON object built at queue.rs lines 864-871. -/
structure RiskPayload where
  text : List Char
  auto_triggered : Bool
  source_type : String
  original_file : Option String
  transcription_backend : Option String
  language : Option String
deriving DecidableEq, Repr

/-- What `auto_submit_risk_analysis` does after inspecting the text: either
the explicit skip (`Ok("skipped")`), or one call to `submit_task_internal`
with the given task type, payload and priority. -/
inductive AutoSubmitOutcome where
  | skipped
  | submitted (task_type : TaskType) (payload : RiskPayload) (priority : Option Int)
deriving DecidableEq, Repr

/-- `auto_submit_risk_analysis` (queue.rs lines 848-875).  The first argument
is the `"text"` field of the transcription result when present as a string. -/
def auto_submit_risk_analysis (transcription_text : Option (List Char))
    (original : TranscriptionPayload) : Except String AutoSubmitOutcome :=
  match transcription_text with
  | none => .error "No text found in transcription result"
  | some text =>
    if (rust_trim text).isEmpty || rust_utf8_len (rust_trim text) < 10 then
      .ok .skipped
    else
      .ok (.submitted TaskType.RiskAnalysis
        { text := text, auto_triggered := true, source_type := "transcription",
          original_file := original.file_path,
          transcription_backend := original.backend,
          language := original.language } (some 2))

/-- How many `RiskAnalysis` submissions an `auto_submit_risk_analysis` call
performs. -/
def risk_submission_count (r : Except String AutoSubmitOutcome) : ℕ :=
  match r with
  | .ok (.submitted _ _ _) => 1
  | _ => 0

/-- A concrete original payload for counterexamples and witnesses. -/
def payload_example : TranscriptionPayload :=
  { file_path := some "a.wav", backend := none, language := none,
    file_size_bytes := none, duration_seconds := none }

/-! ## The Redis sorted set `task_queue`
(`enqueue_task_request` queue.rs lines 227-238, `dequeue_task_request`
lines 240-253).  A sorted set is a list of member/score pairs with unique
members; `ZRANGE q 0 0` returns the member that is least in the order
(score ascending, ties broken by lexicographic member comparison). -/

/-- The strict order a Redis sorted set keeps its entries in. -/
def zIsBefore (x y : String × ℕ) : Prop :=
  x.2 < y.2 ∨ (x.2 = y.2 ∧ x.1 < y.1)

instance (x y : String × ℕ) : Decidable (zIsBefore x y) := by
  unfold zIsBefore; infer_instance

/-- `ZADD`: insert or update a member with the given score. -/
def zadd (q : List (String × ℕ)) (member : String) (score : ℕ) : List (String × ℕ) :=
  q.filter (fun e => e.1 ≠ member) ++ [(member, score)]

/-- The least entry of the sorted set, i.e. the entry `ZRANGE q 0 0` returns. -/
def zmin : List (String × ℕ) → Option (String × ℕ)
  | [] => none
  | x :: xs =>
    match zmin xs with
    | none => some x
    | some m => some (if zIsBefore m x then m else x)

/-- `ZREM`: remove a member. -/
def zrem (q : List (String × ℕ)) (member : String) : List (String × ℕ) :=
  q.filter (fun e => e.1 ≠ member)

/-- `enqueue_task_request` (queue.rs lines 227-238): `ZADD task_queue`
scored by the current Unix timestamp in whole seconds. -/
def enqueue_task_request (q : List (String × ℕ)) (task_id : String) (now_secs : ℕ) :
    List (String × ℕ) :=
  zadd q task_id now_secs

/-- `dequeue_task_request` (queue.rs lines 240-253): `ZRANGE task_queue 0 0`
then `ZREM` the returned member.  Returns the popped id and the new queue. -/
def dequeue_task_request (q : List (String × ℕ)) : Option String × List (String × ℕ) :=
  match zmin q with
  | none => (none, q)
  | some m => (some m.1, zrem q m.1)

/-! ## The durable store and submission
(`Handler<SubmitTask>` queue.rs lines 953-1014, `submit_task_internal`
lines 877-931, `save_task_result` lines 182-194). -/

/-- `TaskRequest` from `queue.rs` (lines 54-62); the JSON payload is opaque
to submission and is modelled as a string. -/
structure TaskRequest where
  id : String
  task_type : TaskType
  created_at : Int
  updated_at : Int
  priority : Int
  payload : String
deriving DecidableEq, Repr

/-- Write a value under a key, replacing any previous binding (Redis `SET`,
also the insert of the in-memory `HashMap` cache). -/
def kvSet {α : Type} (m : List (String × α)) (k : String) (v : α) : List (String × α) :=
  m.filter (fun e => e.1 ≠ k) ++ [(k, v)]

/-- Read a key (Redis `GET` / cache lookup). -/
def kvLookup {α : Type} (m : List (String × α)) (k : String) : Option α :=
  (m.find? (fun e => e.1 == k)).map Prod.snd

/-- The shared durable state: the `task_request:*` keys, the `task_result:*`
keys, the in-memory result cache, and the `task_queue` sorted set. -/
structure Store where
  requests : List (String × TaskRequest)
  results : List (String × TaskResult)
  cache : List (String × TaskResult)
  queue : List (String × ℕ)
deriving Repr

/-- `save_task_result` (queue.rs lines 182-194): `SET task_result:<id>` and
update the in-memory cache. -/
def save_task_result (st : Store) (r : TaskResult) : Store :=
  { st with results := kvSet st.results r.id r, cache := kvSet st.cache r.id r }

/-- The initial `TaskResult` built by both submission paths
(queue.rs lines 891-901 and 969-979). -/
def initial_task_result (task_id : String) (now : Int) : TaskResult :=
  { id := task_id, status := TaskStatus.Pending, created_at := now, updated_at := now,
    started_at := none, completed_at := none, result := none, error := none,
    progress := 0 }

/-- The submission sequence shared by `Handler<SubmitTask>::handle`
(queue.rs lines 983-1012) and `submit_task_internal` (lines 903-917):
persist the `TaskRequest`, persist the initial Pending `TaskResult`, then
enqueue the id.  Each Redis write may fail; a failing step returns the
mapped error and performs no mutation, and no later step runs.  Returns the
caller-visible outcome together with the resulting store. -/
def submit_task (st : Store) (task_id : String) (task_type : TaskType)
    (payload : String) (priority : Option Int) (now : Int) (now_secs : ℕ)
    (fail_set_request fail_save_result fail_enqueue : Bool) :
    Except String String × Store :=
  let task_request : TaskRequest :=
    { id := task_id, task_type := task_type, created_at := now, updated_at := now,
      priority := priority.getD 0, payload := payload }
  let task_result := initial_task_result task_id now
  if fail_set_request then (.error "Failed to save task request", st)
  else
    let st1 := { st with requests := kvSet st.requests task_id task_request }
    if fail_save_result then (.error "Failed to save task result", st1)
    else
      let st2 := save_task_result st1 task_result
      if fail_enqueue then (.error "Failed to enqueue task", st2)
      else (.ok task_id, { st2 with queue := zadd st2.queue task_id now_secs })

/-! ## Recovery (`restore_state`, queue.rs lines 146-180). -/

/-- The demotion applied to an interrupted task (queue.rs lines 173-174). -/
def restore_demote (now : Int) (t : TaskResult) : TaskResult :=
  { t with status := TaskStatus.Pending, updated_at := now }

/-- `restore_state` (queue.rs lines 146-180): build the in-memory cache from
every persisted `TaskResult`, then for each entry found `Processing` demote
it to `Pending`, persist the demotion (which also rewrites the cache entry),
and enqueue its id.  Returns the final cache, the demoted results that were
persisted, and the enqueued ids, in order. -/
def restore_state (now : Int) (persisted : List TaskResult) :
    List (String × TaskResult) × List TaskResult × List String :=
  let cache0 := persisted.foldl (fun c r => kvSet c r.id r) []
  let processing := (cache0.map Prod.snd).filter
    (fun t => t.status = TaskStatus.Processing)
  let demoted := processing.map (restore_demote now)
  let cache1 := demoted.foldl (fun c r => kvSet c r.id r) cache0
  (cache1, demoted, processing.map (fun t => t.id))

/-! ## Stale task reaping (`cleanup_stale_tasks`, queue.rs lines 710-756). -/

/-- The staleness test (queue.rs lines 719-722): status `Processing` and
`started_at` strictly more than one hour (3600 s) before `now`. -/
def is_stale (now : Int) (t : TaskResult) : Bool :=
  decide (t.status = TaskStatus.Processing) &&
    (match t.started_at with
     | some s => decide ((3600 : Int) < now - s)
     | none => false)

/-- The failure record written for a stale task (queue.rs lines 730-733). -/
def stale_failed_result (now : Int) (t : TaskResult) : TaskResult :=
  { t with
    status := TaskStatus.Failed,
    error := some "Task timed out and was cleaned up",
    completed_at := some now, updated_at := now }

/-- `cleanup_stale_tasks` (queue.rs lines 710-756): rewrite every stale
entry of the cache (persisting the change) and count them; all other
entries are untouched. -/
def cleanup_stale_tasks (now : Int) (cache : List TaskResult) :
    List TaskResult × ℕ :=
  (cache.map (fun t => if is_stale now t then stale_failed_result now t else t),
   (cache.filter (is_stale now)).length)

/-! ## Queue statistics (`get_queue_stats_internal`, queue.rs lines 676-708;
`Handler<GetQueueStats>::handle`, lines 1036-1068, is the same code). -/

/-- One step of the counting loop at queue.rs lines 684-692: the accumulator
is (pending, processing, completed, failed); `Cancelled` increments the
failed counter. -/
def status_count_step (acc : ℕ × ℕ × ℕ × ℕ) (t : TaskResult) : ℕ × ℕ × ℕ × ℕ :=
  match t.status with
  | TaskStatus.Pending => (acc.1 + 1, acc.2.1, acc.2.2.1, acc.2.2.2)
  | TaskStatus.Processing => (acc.1, acc.2.1 + 1, acc.2.2.1, acc.2.2.2)
  | TaskStatus.Completed => (acc.1, acc.2.1, acc.2.2.1 + 1, acc.2.2.2)
  | TaskStatus.Failed => (acc.1, acc.2.1, acc.2.2.1, acc.2.2.2 + 1)
  | TaskStatus.Cancelled => (acc.1, acc.2.1, acc.2.2.1, acc.2.2.2 + 1)

/-- `get_queue_stats_internal` (queue.rs lines 676-708): count cached
results by status, then add the sorted set's cardinality (`ZCARD`) to the
pending count; `total_tasks` is the cache size. -/
def get_queue_stats_internal (cache : List TaskResult) (queue : List (String × ℕ)) :
    QueueStats :=
  let counts := cache.foldl status_count_step (0, 0, 0, 0)
  { pending_count := counts.1 + queue.length,
    processing_count := counts.2.1,
    completed_count := counts.2.2.1,
    failed_count := counts.2.2.2,
    total_tasks := cache.length }

/-! ## Per-task progress/status lifecycle

`execute_task` (queue.rs lines 359-462) and the two `process_*` functions
persist a sequence of `(status, progress)` writes for each task.  The
supervisor carries a local `task_result` whose `progress` field is what the
terminal `Failed` write persists (queue.rs line 438 saves the local record),
while the in-loop progress updates (lines 641-667) write a re-fetched copy,
leaving the local field at its last staged value.  The state tracks both the
persisted progress and the supervisor's local progress. -/

/-- The staged checkpoint values `process_transcription_task` saves while
`Processing` (queue.rs lines 489, 500, 511, 546, 599). -/
def transcription_checkpoints : List ℚ := [5, 10, 20, 30, 95]

/-- The staged checkpoint value `process_risk_analysis_task` saves while
`Processing` (queue.rs line 764). -/
def risk_checkpoints : List ℚ := [20]

/-- The progress value computed in the wait loop (queue.rs lines 637-638):
35 plus a time-based share of 50, capped at 90. -/
def loop_progress (elapsed max_wait : ℕ) : ℚ :=
  min (35 + (elapsed : ℚ) / (max_wait : ℚ) * 50) 90

/-- The throttle condition for persisting a loop progress update
(queue.rs line 641): every 10 elapsed seconds, or when the truncated
progress is a multiple of 15. -/
def loop_write_cond (elapsed max_wait : ℕ) : Bool :=
  elapsed % 10 == 0 || (⌊loop_progress elapsed max_wait⌋).toNat % 15 == 0

/-- The per-task state: current status, the progress value last persisted,
and the supervising execution's local progress field. -/
structure TaskState where
  status : TaskStatus
  persisted : ℚ
  localp : ℚ
deriving DecidableEq, Repr

/-- One persisted transition of a task's `TaskResult`, as performed by the
code: dispatch (`process_next_task`, queue.rs lines 315-357), staged
checkpoints and throttled loop writes (`process_transcription_task` /
`process_risk_analysis_task`), the terminal writes of `execute_task`
(lines 379-440), stale reaping (`cleanup_stale_tasks`, lines 726-739), and
recovery demotion (`restore_state`, lines 171-177). -/
inductive Step : TaskState → TaskState → Prop where
  | dispatch (s : TaskState) (h : s.status = TaskStatus.Pending) :
      Step s ⟨TaskStatus.Processing, s.persisted, s.persisted⟩
  | checkpoint (s : TaskState) (c : ℚ) (h : s.status = TaskStatus.Processing)
      (hc : c ∈ transcription_checkpoints ∨ c ∈ risk_checkpoints) :
      Step s ⟨TaskStatus.Processing, c, c⟩
  | loop_write (s : TaskState) (e m : ℕ) (h : s.status = TaskStatus.Processing)
      (hcond : loop_write_cond e m = true) :
      Step s ⟨TaskStatus.Processing, loop_progress e m, s.localp⟩
  | complete (s : TaskState) (h : s.status = TaskStatus.Processing) :
      Step s ⟨TaskStatus.Completed, 100, 100⟩
  | fail_supervisor (s : TaskState) (h : s.status = TaskStatus.Processing) :
      Step s ⟨TaskStatus.Failed, s.localp, s.localp⟩
  | fail_stale (s : TaskState) (h : s.status = TaskStatus.Processing) :
      Step s ⟨TaskStatus.Failed, s.persisted, s.localp⟩
  | demote_recovery (s : TaskState) (h : s.status = TaskStatus.Processing) :
      Step s ⟨TaskStatus.Pending, s.persisted, s.localp⟩

/-- States reachable from the initial Pending record with progress 0 that
submission persists. -/
inductive ReachableTaskState : TaskState → Prop where
  | init : ReachableTaskState ⟨TaskStatus.Pending, 0, 0⟩
  | step {s t : TaskState} (hs : ReachableTaskState s) (hst : Step s t) :
      ReachableTaskState t

/-! ## Persisted progress-write sequences of one transcription execution

`process_transcription_task` checks the completion channel every 2 s; after
`k` empty checks, the elapsed counter has visited 2, 4, …, 2·k.  Each
visited value that passes `loop_write_cond` (and does not exceed the
budget) persists `loop_progress`.  These lists record the persisted
progress values of one execution, in order. -/

/-- The elapsed values after each of `k` empty channel checks. -/
def loop_elapsed_ticks (k : ℕ) : List ℕ := (List.range k).map (fun i => 2 * i + 2)

/-- Progress values persisted from the wait loop during the first `k` empty
checks (queue.rs lines 641-667). -/
def loop_writes_upto (max_wait k : ℕ) : List ℚ :=
  ((loop_elapsed_ticks k).filter (fun e => loop_write_cond e max_wait)).map
    (fun e => loop_progress e max_wait)

/-- All progress values an execution persists before its terminal write:
the staged checkpoints 5, 10, 20, 30, then the loop writes while
`elapsed ≤ max_wait` (the check at queue.rs line 626 times out once
`elapsed` exceeds the budget). -/
def transcription_pre_terminal_writes (max_wait : ℕ) : List ℚ :=
  [5, 10, 20, 30] ++ loop_writes_upto max_wait (max_wait / 2)

/-- Progress values persisted by an execution whose transcription result
arrives after `k` empty checks: checkpoints, loop writes, the 95 checkpoint
(queue.rs line 599), and the final Completed write with progress 100. -/
def transcription_success_writes (max_wait k : ℕ) : List ℚ :=
  [5, 10, 20, 30] ++ loop_writes_upto max_wait k ++ [95, 100]

/-- Progress values persisted by an execution that times out: the final
Failed write saves the supervisor's local record, whose progress is still
the last staged checkpoint 30 (queue.rs lines 546, 626-633, 438). -/
def transcription_timeout_writes (max_wait : ℕ) : List ℚ :=
  transcription_pre_terminal_writes max_wait ++ [30]

/-- The persisted progress values over a lifetime that spans one restart:
the initial Pending write (progress 0), the first `n` writes of an
execution interrupted by a crash, then — after `restore_state` demotes the
task (progress unchanged) and it is re-dispatched — the writes of a second,
successful execution. -/
def restart_lifetime_writes (m₁ n m₂ k : ℕ) : List ℚ :=
  0 :: ((transcription_pre_terminal_writes m₁).take n ++
    transcription_success_writes m₂ k)

/-- A persisted `Processing` result, for recovery witnesses. -/
def result_processing_example : TaskResult :=
  { id := "p", status := TaskStatus.Processing, created_at := 0, updated_at := 0,
    started_at := some 0, completed_at := none, result := none, error := none,
    progress := 50 }

/-- A persisted `Completed` result, for recovery witnesses. -/
def result_completed_example : TaskResult :=
  { id := "c", status := TaskStatus.Completed, created_at := 0, updated_at := 0,
    started_at := some 0, completed_at := some 5, result := some "r", error := none,
    progress := 100 }

/-- The empty store, for submission witnesses. -/
def store_empty : Store := { requests := [], results := [], cache := [], queue := [] }

/-! # Helper lemmas -/

theorem rust_utf8_len_eq_zero {l : List Char} (h : rust_utf8_len l = 0) : l = [] := by
  cases l with
  | nil => rfl
  | cons c cs =>
    exfalso
    have hc : 1 ≤ rust_char_utf8_size c := by
      unfold rust_char_utf8_size
      split <;> try split <;> try split
      all_goals omega
    simp [rust_utf8_len] at h
    omega

/-! # Claim C1 — auto-chain skip rule -/

/-- C1 counterexample.  The claim states that a transcription text of length
at least 10 characters yields exactly one RiskAnalysis submission and that
an absent text is an explicit no-op rather than an error.  The code instead
tests the UTF-8 byte length of the *trimmed* text: `"abcdefgh  "` has 10
characters but is skipped (zero submissions), and an absent text produces
an error result, not a no-op. -/
theorem auto_chain_skip_claim_counterexample :
    ("abcdefgh  ".data.length ≥ 10 ∧
      risk_submission_count
        (auto_submit_risk_analysis (some "abcdefgh  ".data) payload_example) = 0) ∧
    auto_submit_risk_analysis none payload_example =
      .error "No text found in transcription result" :=
  ⟨⟨by decide, by rfl⟩, rfl⟩

/-- C1 (amended): an absent text fails with an error (zero submissions); a
present text whose trimmed form has UTF-8 byte length below 10 — in
particular a trim-empty text — is an explicit no-op with zero submissions;
otherwise exactly one RiskAnalysis task is submitted, tagged
`auto_triggered = true`, at priority 2. -/
theorem auto_chain_skip_amended (text : List Char) (orig : TranscriptionPayload) :
    (rust_utf8_len (rust_trim text) < 10 →
      auto_submit_risk_analysis (some text) orig = .ok .skipped) ∧
    (10 ≤ rust_utf8_len (rust_trim text) →
      auto_submit_risk_analysis (some text) orig =
        .ok (.submitted TaskType.RiskAnalysis
          { text := text, auto_triggered := true, source_type := "transcription",
            original_file := orig.file_path,
            transcription_backend := orig.backend,
            language := orig.language } (some 2))) ∧
    risk_submission_count (auto_submit_risk_analysis (some text) orig) =
      (if rust_utf8_len (rust_trim text) < 10 then 0 else 1) ∧
    auto_submit_risk_analysis none orig =
      .error "No text found in transcription result" := by
  refine ⟨?_, ?_, ?_, rfl⟩
  · intro h
    simp [auto_submit_risk_analysis, h]
  · intro h
    have hne : ¬ (rust_trim text).isEmpty := by
      cases he : (rust_trim text).isEmpty
      · simp
      · exfalso
        have : rust_trim text = [] := by
          cases hl : rust_trim text
          · rfl
          · rw [hl] at he; simp [List.isEmpty] at he
        rw [this] at h; simp [rust_utf8_len] at h
    simp [auto_submit_risk_analysis, hne, Nat.not_lt.mpr h]
  · by_cases h : rust_utf8_len (rust_trim text) < 10
    · simp [auto_submit_risk_analysis, h, risk_submission_count]
    · have hne : ¬ (rust_trim text).isEmpty := by
        cases hl : rust_trim text
        · rw [hl] at h; simp [rust_utf8_len] at h
        · simp [List.isEmpty]
      simp [auto_submit_risk_analysis, hne, h, risk_submission_count]

/-- C1 witness: the amended theorem applied to the 26-byte text of the
spec's walkthrough scenario and to a 7-byte text. -/
theorem auto_chain_skip_amended_witness :
    auto_submit_risk_analysis (some "hello world this is a test".data) payload_example =
      .ok (.submitted TaskType.RiskAnalysis
        { text := "hello world this is a test".data, auto_triggered := true,
          source_type := "transcription", original_file := some "a.wav",
          transcription_backend := none, language := none } (some 2)) ∧
    auto_submit_risk_analysis (some "hi".data) payload_example = .ok .skipped :=
  ⟨(auto_chain_skip_amended "hello world this is a test".data payload_example).2.1
      (by decide),
    (auto_chain_skip_amended "hi".data payload_example).1 (by decide)⟩

/-! # Claim C2 — dynamic timeout -/

/-- C2 counterexample.  The claim says the budget adds 60 s per 50 MB
*beyond* 50 MB (and 120 s per 30 min beyond 30 min).  For a 150 MB input
(157286400 bytes) with no duration metadata the specification formula gives
300 + 60·(100/50) = 420 s, but the code computes 60·(150/50) = 180 extra
seconds from the *total* size, i.e. 480 s. -/
theorem dynamic_timeout_claim_counterexample :
    max_wait_time (some 157286400) (some 0) = 480 ∧
    spec_timeout (some 157286400) (some 0) = 420 := by
  constructor
  · norm_num [max_wait_time, Option.getD]
    decide
  · norm_num [spec_timeout, Option.getD]
    decide

/-- C2 (amended): the budget is 300 s, plus — when the input exceeds
50 MB — 60 s per 50 MB of *total* input size (truncated, i.e.
⌊3·bytes/2621440⌋ s), plus — when the estimated duration exceeds
30 min — 120 s per 30 min of *total* duration (⌊seconds/15⌋ s), hard-capped
at 1800 s.  Absent payload fields default to 0. -/
theorem dynamic_timeout_closed_form (fs : Option ℕ) (dur : Option ℚ) :
    max_wait_time fs dur =
      min (300 + (if 52428800 < fs.getD 0 then 3 * fs.getD 0 / 2621440 else 0)
           + (if 1800 < dur.getD 0 then (⌊dur.getD 0 / 15⌋).toNat else 0)) 1800 := by
  unfold max_wait_time
  have hc1 : ((50 : ℚ) < (fs.getD 0 : ℚ) / (1024 * 1024)) ↔ (52428800 < fs.getD 0) := by
    rw [lt_div_iff₀ (by norm_num)]
    constructor
    · intro h
      exact_mod_cast (by linarith : (52428800 : ℚ) < (fs.getD 0 : ℚ))
    · intro h
      have : (52428800 : ℚ) < (fs.getD 0 : ℚ) := by exact_mod_cast h
      linarith
  have hv1 : ((fs.getD 0 : ℚ) / (1024 * 1024) / 50) * 60
      = ((3 * fs.getD 0 : ℕ) : ℚ) / ((2621440 : ℕ) : ℚ) := by
    push_cast
    ring
  have hc2 : ((30 : ℚ) < dur.getD 0 / 60) ↔ (1800 < dur.getD 0) := by
    rw [lt_div_iff₀ (by norm_num)]
    constructor <;> intro h <;> linarith
  have hv2 : (dur.getD 0 / 60 / 30) * 120 = dur.getD 0 / 15 := by ring
  simp only [hc1, hv1, hc2, hv2, Int.floor_toNat, Nat.floor_div_eq_div]

/-! # Sorted-set ordering lemmas -/

theorem zIsBefore_irrefl (x : String × ℕ) : ¬ zIsBefore x x := by
  unfold zIsBefore
  push_neg
  exact ⟨le_refl _, fun _ => le_refl _⟩

theorem zIsBefore_asymm {x y : String × ℕ} (h : zIsBefore x y) : ¬ zIsBefore y x := by
  unfold zIsBefore at *
  push_neg
  rcases h with h | ⟨he, hs⟩
  · exact ⟨le_of_lt h, fun h2 => absurd h (by omega)⟩
  · exact ⟨le_of_eq he, fun _ => le_of_lt hs⟩

theorem zIsBefore_neg_trans {x y z : String × ℕ}
    (h1 : ¬ zIsBefore x y) (h2 : ¬ zIsBefore y z) : ¬ zIsBefore x z := by
  unfold zIsBefore at *
  push_neg at *
  obtain ⟨h1s, h1m⟩ := h1
  obtain ⟨h2s, h2m⟩ := h2
  refine ⟨by omega, fun he => ?_⟩
  exact le_trans (h2m (by omega)) (h1m (by omega))

theorem zmin_eq_none {q : List (String × ℕ)} (h : zmin q = none) : q = [] := by
  cases q with
  | nil => rfl
  | cons x xs =>
    exfalso
    simp only [zmin] at h
    cases hxs : zmin xs with
    | none => rw [hxs] at h; simp at h
    | some m => rw [hxs] at h; simp at h

theorem zmin_mem {q : List (String × ℕ)} {m : String × ℕ} (h : zmin q = some m) :
    m ∈ q := by
  induction q generalizing m with
  | nil => simp [zmin] at h
  | cons x xs ih =>
    simp only [zmin] at h
    cases hxs : zmin xs with
    | none => rw [hxs] at h; simp at h; simp [h]
    | some m' =>
      rw [hxs] at h
      simp at h
      by_cases hb : zIsBefore m' x
      · rw [if_pos hb] at h
        exact List.mem_cons_of_mem _ (h ▸ ih hxs)
      · rw [if_neg hb] at h
        simp [← h]

theorem zmin_least {q : List (String × ℕ)} {m : String × ℕ} (h : zmin q = some m) :
    ∀ x ∈ q, ¬ zIsBefore x m := by
  induction q generalizing m with
  | nil => simp [zmin] at h
  | cons x xs ih =>
    simp only [zmin] at h
    intro y hy
    cases hxs : zmin xs with
    | none =>
      rw [hxs] at h
      simp at h
      have hnil := zmin_eq_none hxs
      subst hnil
      simp at hy
      subst hy; subst h
      exact zIsBefore_irrefl _
    | some m' =>
      rw [hxs] at h
      simp at h
      by_cases hb : zIsBefore m' x
      · rw [if_pos hb] at h
        subst h
        rcases List.mem_cons.mp hy with rfl | hmem
        · exact zIsBefore_asymm hb
        · exact ih hxs _ hmem
      · rw [if_neg hb] at h
        subst h
        rcases List.mem_cons.mp hy with rfl | hmem
        · exact zIsBefore_irrefl _
        · exact zIsBefore_neg_trans (ih hxs _ hmem) hb

theorem mem_key_eq {q : List (String × ℕ)} (hnd : (q.map Prod.fst).Nodup)
    {k : String} {v1 v2 : ℕ} (h1 : (k, v1) ∈ q) (h2 : (k, v2) ∈ q) : v1 = v2 := by
  induction q with
  | nil => simp at h1
  | cons x xs ih =>
    simp only [List.map_cons, List.nodup_cons] at hnd
    rcases List.mem_cons.mp h1 with he1 | hm1 <;> rcases List.mem_cons.mp h2 with he2 | hm2
    · rw [← he1] at he2; exact (Prod.mk.injEq _ _ _ _ ▸ he2).2.symm ▸ rfl
    · exfalso
      exact hnd.1 (he1 ▸ (List.mem_map.mpr ⟨_, hm2, rfl⟩))
    · exfalso
      exact hnd.1 (he2 ▸ (List.mem_map.mpr ⟨_, hm1, rfl⟩))
    · exact ih hnd.2 hm1 hm2

/-! # Claim C3 — dequeue order equals admission order -/

/-- C3 counterexample.  The claim says the task enqueued first is dequeued
(and so marked Processing) first.  Admission scores are whole seconds, so
two tasks admitted within the same second tie, and `ZRANGE` breaks the tie
by lexicographic member order: enqueuing id `"b"` and then id `"a"` in the
same second (score 5) dequeues `"a"` — the *second* submission — first. -/
theorem dequeue_order_claim_counterexample :
    (dequeue_task_request (enqueue_task_request (enqueue_task_request [] "b" 5) "a" 5)).1
      = some "a" ∧ ("a" : String) ≠ "b" := by
  constructor
  · have hq : enqueue_task_request (enqueue_task_request [] "b" 5) "a" 5
        = [("b", 5), ("a", 5)] := by
      simp [enqueue_task_request, zadd, List.filter]
    rw [hq]
    have hb : zIsBefore ("a", 5) ("b", 5) :=
      Or.inr ⟨rfl, String.lt_iff_toList_lt.mpr (by decide)⟩
    simp [dequeue_task_request, zmin, hb]
  · decide

/-- C3 (amended): dequeue pops the entry least under (score, id); a task
whose admission timestamp is *strictly* smaller is popped no later than any
other (ties within the same second are broken by id, not admission order);
and the numeric priority value has no effect on the queue produced by
submission. -/
theorem dequeue_order_amended (q : List (String × ℕ)) (a b : String) (ta tb : ℕ)
    (hnd : (q.map Prod.fst).Nodup) (ha : (a, ta) ∈ q) (hb : (b, tb) ∈ q)
    (hlt : ta < tb) :
    (dequeue_task_request q).1 ≠ some b ∧
    (∀ (st : Store) (id pl : String) (tt : TaskType) (p₁ p₂ : Option Int)
      (now : Int) (sc : ℕ) (f1 f2 f3 : Bool),
      (submit_task st id tt pl p₁ now sc f1 f2 f3).2.queue =
        (submit_task st id tt pl p₂ now sc f1 f2 f3).2.queue) := by
  constructor
  · intro hcontra
    unfold dequeue_task_request at hcontra
    cases hm : zmin q with
    | none => rw [hm] at hcontra; simp at hcontra
    | some m =>
      rw [hm] at hcontra
      simp at hcontra
      have hmem := zmin_mem hm
      have hmb : m = (b, tb) := by
        cases m with
        | mk mk ms =>
          simp at hcontra
          subst hcontra
          exact congrArg _ (mem_key_eq hnd hmem hb)
      have := zmin_least hm (a, ta) ha
      rw [hmb] at this
      exact this (Or.inl hlt)
  · intro st id pl tt p₁ p₂ now sc f1 f2 f3
    cases f1 <;> cases f2 <;> cases f3 <;> rfl

/-- C3 witness: in a queue holding id `"x"` at second 3 and id `"y"` at
second 7, dequeue does not pop `"y"` first. -/
theorem dequeue_order_amended_witness :
    (dequeue_task_request [("x", 3), ("y", 7)]).1 ≠ some "y" :=
  (dequeue_order_amended [("x", 3), ("y", 7)] "x" "y" 3 7 (by decide)
    (by decide) (by decide) (by decide)).1

/-! # Key-value store lemmas -/

theorem kvLookup_kvSet {α : Type} (m : List (String × α)) (k : String) (v : α)
    (q : String) :
    kvLookup (kvSet m k v) q = if q = k then some v else kvLookup m q := by
  unfold kvSet kvLookup
  rw [List.find?_append]
  by_cases h : q = k
  · subst h
    have h1 : (m.filter (fun e => decide ¬(e.1 = q))).find? (fun e => e.1 == q)
        = none := by
      rw [List.find?_eq_none]
      intro x hx
      have := (List.mem_filter.mp hx).2
      simp at this ⊢
      exact this
    simp [h1, List.find?]
  · have h2 : ([(k, v)].find? (fun e => e.1 == q)) = none := by
      have hkq : (k == q) = false := by
        simp only [beq_eq_false_iff_ne, ne_eq]
        exact fun e => h e.symm
      simp [List.find?, hkq]
    rw [h2, Option.or_none]
    have h3 : (m.filter (fun e => decide ¬(e.1 = k))).find? (fun e => e.1 == q)
        = m.find? (fun e => e.1 == q) := by
      induction m with
      | nil => rfl
      | cons x xs ih =>
        by_cases hk : x.1 = k
        · have hxq : ¬ x.1 = q := fun hc => h (hc.symm.trans hk)
          rw [List.filter_cons, if_neg (by simp [hk]), ih,
            List.find?_cons_of_neg _ (by simp [hxq])]
        · rw [List.filter_cons, if_pos (by simp [hk])]
          by_cases hxq : x.1 = q
          · rw [List.find?_cons_of_pos _ (by simp [hxq]),
              List.find?_cons_of_pos _ (by simp [hxq])]
          · rw [List.find?_cons_of_neg _ (by simp [hxq]),
              List.find?_cons_of_neg _ (by simp [hxq]), ih]
    rw [h3, if_neg h]

theorem kvLookup_kvSet_isSome {α : Type} (m : List (String × α)) (k : String)
    (v : α) (q : String) (h : (kvLookup m q).isSome = true) :
    (kvLookup (kvSet m k v) q).isSome = true := by
  rw [kvLookup_kvSet]
  split
  · rfl
  · exact h

theorem kvLookup_foldl_kvSet (l : List TaskResult) (acc : List (String × TaskResult))
    (k : String) (hnd : (l.map (fun r => r.id)).Nodup) :
    kvLookup (l.foldl (fun c r => kvSet c r.id r) acc) k =
      match l.find? (fun r => r.id == k) with
      | some r => some r
      | none => kvLookup acc k := by
  induction l generalizing acc with
  | nil => simp [List.find?]
  | cons r rs ih =>
    simp only [List.map_cons, List.nodup_cons] at hnd
    rw [List.foldl_cons]
    rw [ih _ hnd.2]
    by_cases hk : r.id = k
    · have hfind : rs.find? (fun r => r.id == k) = none := by
        rw [List.find?_eq_none]
        intro x hx hbeq
        exact hnd.1 (by
          rw [List.mem_map]
          exact ⟨x, hx, by subst hk; exact (beq_iff_eq.mp hbeq)⟩)
      simp [hfind, List.find?, hk, kvLookup_kvSet]
    · have : (r.id == k) = false := by simp [hk]
      simp [List.find?, this, kvLookup_kvSet, Ne.symm, hk]

theorem foldl_kvSet_eq_map (l : List TaskResult) (acc : List (String × TaskResult))
    (hdisj : ∀ r ∈ l, ∀ e ∈ acc, e.1 ≠ r.id)
    (hnd : (l.map (fun r => r.id)).Nodup) :
    l.foldl (fun c r => kvSet c r.id r) acc = acc ++ l.map (fun r => (r.id, r)) := by
  induction l generalizing acc with
  | nil => simp
  | cons r rs ih =>
    simp only [List.map_cons, List.nodup_cons] at hnd
    rw [List.foldl_cons]
    have hacc : kvSet acc r.id r = acc ++ [(r.id, r)] := by
      unfold kvSet
      congr 1
      refine List.filter_eq_self.mpr ?_
      intro e he
      simpa using hdisj r (List.mem_cons_self _ _) e he
    rw [hacc, ih]
    · simp
    · intro r' hr' e he
      rcases List.mem_append.mp he with h1 | h2
      · exact hdisj r' (List.mem_cons_of_mem _ hr') e h1
      · simp only [List.mem_singleton] at h2
        subst h2
        intro hc
        exact hnd.1 (List.mem_map.mpr ⟨r', hr', hc.symm⟩)
    · exact hnd.2

theorem kvLookup_map_pair (l : List TaskResult) (k : String) :
    kvLookup (l.map (fun r => (r.id, r))) k = l.find? (fun r => r.id == k) := by
  unfold kvLookup
  rw [List.find?_map]
  have : ((fun e : String × TaskResult => e.1 == k) ∘ fun r => (r.id, r))
      = fun r => r.id == k := rfl
  rw [this, Option.map_map]
  have h2 : (Prod.snd ∘ fun r : TaskResult => (r.id, r)) = id := rfl
  rw [h2, Option.map_id]
  rfl

/-! # Claim C4 — recovery procedure -/

/-- C4: recovery loads every persisted result into the cache; the enqueued
ids are exactly the ids persisted with status Processing, each exactly once
(the id list is duplicate-free, and an id is enqueued iff its result was
Processing); every demotion it persists is Pending with `updated_at`
rewritten; and the cached entry of each recovered Processing task is its
demoted, persisted form. -/
theorem restore_state_recovery (now : Int) (persisted : List TaskResult)
    (hnd : (persisted.map (fun r => r.id)).Nodup) :
    (∀ r ∈ persisted, (kvLookup (restore_state now persisted).1 r.id).isSome = true) ∧
    (restore_state now persisted).2.2 =
      (persisted.filter (fun t => t.status = TaskStatus.Processing)).map
        (fun t => t.id) ∧
    (restore_state now persisted).2.2.Nodup ∧
    (∀ r ∈ persisted,
      (r.id ∈ (restore_state now persisted).2.2 ↔ r.status = TaskStatus.Processing)) ∧
    (∀ d ∈ (restore_state now persisted).2.1,
      d.status = TaskStatus.Pending ∧ d.updated_at = now) ∧
    (∀ r ∈ persisted, r.status = TaskStatus.Processing →
      kvLookup (restore_state now persisted).1 r.id = some (restore_demote now r)) := by
  have hc0 : persisted.foldl (fun c r => kvSet c r.id r) []
      = persisted.map (fun r => (r.id, r)) := by
    have := foldl_kvSet_eq_map persisted [] (by simp) hnd
    simpa using this
  have hproc : ((persisted.map (fun r => (r.id, r))).map Prod.snd).filter
      (fun t => decide (t.status = TaskStatus.Processing))
      = persisted.filter (fun t => decide (t.status = TaskStatus.Processing)) := by
    rw [List.map_map]
    have hcomp : (Prod.snd ∘ fun r : TaskResult => (r.id, r)) = id := rfl
    rw [hcomp, List.map_id]
  have hout : restore_state now persisted =
      (((persisted.filter (fun t => decide (t.status = TaskStatus.Processing))).map
          (restore_demote now)).foldl (fun c r => kvSet c r.id r)
        (persisted.map (fun r => (r.id, r))),
       (persisted.filter (fun t => decide (t.status = TaskStatus.Processing))).map
         (restore_demote now),
       (persisted.filter (fun t => decide (t.status = TaskStatus.Processing))).map
         (fun t => t.id)) := by
    simp only [restore_state]
    rw [hc0, hproc]
  have hids : ((persisted.filter
        (fun t => decide (t.status = TaskStatus.Processing))).map
        (restore_demote now)).map (fun r => r.id)
      = (persisted.filter (fun t => decide (t.status = TaskStatus.Processing))).map
        (fun t => t.id) := by
    simp [List.map_map, Function.comp, restore_demote]
  have hnd_filter : ((persisted.filter
        (fun t => decide (t.status = TaskStatus.Processing))).map
        (fun t => t.id)).Nodup :=
    hnd.sublist ((List.filter_sublist persisted).map _)
  have hnd_dem : ((persisted.filter
        (fun t => decide (t.status = TaskStatus.Processing))).map
        (restore_demote now)).map (fun r => r.id) |>.Nodup := by
    rw [hids]; exact hnd_filter
  have hinj := List.inj_on_of_nodup_map hnd
  refine ⟨?_, ?_, ?_, ?_, ?_, ?_⟩
  · intro r hr
    rw [hout]
    dsimp only
    rw [kvLookup_foldl_kvSet _ _ _ hnd_dem]
    cases hf : ((persisted.filter
        (fun t => decide (t.status = TaskStatus.Processing))).map
        (restore_demote now)).find? (fun d => d.id == r.id) with
    | some d => rfl
    | none =>
      rw [kvLookup_map_pair]
      have : (persisted.find? (fun t => t.id == r.id)).isSome = true :=
        List.find?_isSome.mpr ⟨r, hr, by simp⟩
      cases hp : persisted.find? (fun t => t.id == r.id) with
      | some x => rfl
      | none => rw [hp] at this; simp at this
  · rw [hout]
  · rw [hout]
    exact hnd_filter
  · intro r hr
    rw [hout]
    dsimp only
    constructor
    · intro hmem
      rcases List.mem_map.mp hmem with ⟨t, htf, hte⟩
      have htp := List.mem_filter.mp htf
      have : t = r := hinj htp.1 hr hte
      rw [← this]
      simpa using htp.2
    · intro hp
      exact List.mem_map.mpr ⟨r, List.mem_filter.mpr ⟨hr, by simp [hp]⟩, rfl⟩
  · intro d hd
    rw [hout] at hd
    rcases List.mem_map.mp hd with ⟨t, _, hte⟩
    rw [← hte]
    exact ⟨rfl, rfl⟩
  · intro r hr hp
    rw [hout]
    dsimp only
    rw [kvLookup_foldl_kvSet _ _ _ hnd_dem]
    have hmem : restore_demote now r ∈ (persisted.filter
        (fun t => decide (t.status = TaskStatus.Processing))).map
        (restore_demote now) :=
      List.mem_map.mpr ⟨r, List.mem_filter.mpr ⟨hr, by simp [hp]⟩, rfl⟩
    have hsome : (((persisted.filter
        (fun t => decide (t.status = TaskStatus.Processing))).map
        (restore_demote now)).find? (fun d => d.id == r.id)).isSome = true :=
      List.find?_isSome.mpr ⟨restore_demote now r, hmem, by simp [restore_demote]⟩
    cases hf : ((persisted.filter
        (fun t => decide (t.status = TaskStatus.Processing))).map
        (restore_demote now)).find? (fun d => d.id == r.id) with
    | none => rw [hf] at hsome; simp at hsome
    | some d =>
      have hdid : d.id = r.id := by
        have := List.find?_some hf
        simpa using this
      have hdm := List.mem_of_find?_eq_some hf
      rcases List.mem_map.mp hdm with ⟨t, htf, hte⟩
      have htp := List.mem_filter.mp htf
      have htid : t.id = r.id := by
        rw [← hte] at hdid
        simpa [restore_demote] using hdid
      have : t = r := hinj htp.1 hr htid
      rw [← hte, this]

/-- C4 witness: recovering a store holding one Processing and one Completed
result re-enqueues exactly the Processing id. -/
theorem restore_state_recovery_witness :
    (restore_state 10 [result_processing_example, result_completed_example]).2.2 =
      ([result_processing_example, result_completed_example].filter
        (fun t => t.status = TaskStatus.Processing)).map (fun t => t.id) ∧
    (result_completed_example.id ∈
        (restore_state 10 [result_processing_example, result_completed_example]).2.2 ↔
      result_completed_example.status = TaskStatus.Processing) :=
  ⟨(restore_state_recovery 10 [result_processing_example, result_completed_example]
      (by decide)).2.1,
    (restore_state_recovery 10 [result_processing_example, result_completed_example]
      (by decide)).2.2.2.1 result_completed_example
      (List.mem_cons_of_mem _ (List.mem_cons_self _ _))⟩

/-! # Claim C5 — submission persistence integrity -/

/-- C5: any persistence failure during submission aborts it with a
synchronous error and leaves the queue untouched; whenever the queue
invariant (every queued id has a persisted `TaskRequest`) holds before a
submission, it holds after, under any failure pattern; and the fresh id can
be in the resulting queue only with both its `TaskRequest` and its initial
Pending `TaskResult` persisted. -/
theorem submit_persistence_integrity (st : Store) (task_id : String) (tt : TaskType)
    (pl : String) (prio : Option Int) (now : Int) (sc : ℕ) (f1 f2 f3 : Bool)
    (hinv : ∀ e ∈ st.queue, (kvLookup st.requests e.1).isSome = true)
    (hfresh : ∀ s, (task_id, s) ∉ st.queue) :
    (∀ e ∈ (submit_task st task_id tt pl prio now sc f1 f2 f3).2.queue,
      (kvLookup (submit_task st task_id tt pl prio now sc f1 f2 f3).2.requests
        e.1).isSome = true) ∧
    ((f1 || f2 || f3) = true →
      (∃ msg, (submit_task st task_id tt pl prio now sc f1 f2 f3).1 = .error msg) ∧
      (submit_task st task_id tt pl prio now sc f1 f2 f3).2.queue = st.queue) ∧
    ((submit_task st task_id tt pl prio now sc f1 f2 f3).1 = .ok task_id ↔
      (f1 || f2 || f3) = false) ∧
    (∀ s, (task_id, s) ∈ (submit_task st task_id tt pl prio now sc f1 f2 f3).2.queue →
      kvLookup (submit_task st task_id tt pl prio now sc f1 f2 f3).2.requests task_id
          = some { id := task_id, task_type := tt, created_at := now,
                   updated_at := now, priority := prio.getD 0, payload := pl } ∧
      kvLookup (submit_task st task_id tt pl prio now sc f1 f2 f3).2.results task_id
          = some (initial_task_result task_id now)) := by
  cases f1 with
  | true =>
    refine ⟨hinv, fun _ => ⟨⟨_, rfl⟩, rfl⟩, by simp [submit_task], fun s hs => ?_⟩
    exact absurd hs (hfresh s)
  | false =>
    cases f2 with
    | true =>
      refine ⟨?_, fun _ => ⟨⟨_, rfl⟩, rfl⟩, by simp [submit_task], fun s hs => ?_⟩
      · intro e he
        exact kvLookup_kvSet_isSome _ _ _ _ (hinv e he)
      · exact absurd hs (hfresh s)
    | false =>
      cases f3 with
      | true =>
        refine ⟨?_, fun _ => ⟨⟨_, rfl⟩, rfl⟩, by simp [submit_task], fun s hs => ?_⟩
        · intro e he
          exact kvLookup_kvSet_isSome _ _ _ _ (hinv e he)
        · exact absurd hs (hfresh s)
      | false =>
        refine ⟨?_, by simp, by simp [submit_task], fun s hs => ?_⟩
        · intro e he
          show (kvLookup (kvSet st.requests task_id _) e.1).isSome = true
          rcases List.mem_append.mp he with h1 | h2
          · have := (List.mem_filter.mp h1).1
            exact kvLookup_kvSet_isSome _ _ _ _ (hinv e this)
          · simp only [List.mem_singleton] at h2
            subst h2
            rw [kvLookup_kvSet, if_pos rfl]
            rfl
        · constructor
          · show kvLookup (kvSet st.requests task_id _) task_id = _
            rw [kvLookup_kvSet, if_pos rfl]
          · show kvLookup (kvSet st.results task_id _) task_id = _
            rw [kvLookup_kvSet, if_pos rfl]

/-- C5 witness: a successful submission into the empty store returns the
fresh id. -/
theorem submit_persistence_integrity_witness :
    (submit_task store_empty "t1" TaskType.Transcription "p" none 0 0
        false false false).1 = .ok "t1" ↔ (false || false || false) = false :=
  (submit_persistence_integrity store_empty "t1" TaskType.Transcription "p"
    none 0 0 false false false (by simp [store_empty]) (by simp [store_empty])).2.2.1

/-! # Claims C6 and C9 — lifecycle invariants -/

theorem reachable_strong_inv {s : TaskState} (h : ReachableTaskState s) :
    (s.status = TaskStatus.Completed → s.persisted = 100) ∧
    (s.status ≠ TaskStatus.Completed → s.persisted < 100 ∧ s.localp < 100) := by
  induction h with
  | init =>
    exact ⟨fun hc => by simp at hc, fun _ => ⟨by norm_num, by norm_num⟩⟩
  | step hs hst ih =>
    have hne_of : ∀ {st : TaskState} {v : TaskStatus}, st.status = v →
        v ≠ TaskStatus.Completed → st.status ≠ TaskStatus.Completed :=
      fun h hv => by rw [h]; exact hv
    cases hst with
    | dispatch h =>
      refine ⟨fun hc => by simp at hc, fun _ => ?_⟩
      have hne := hne_of h (by simp)
      exact ⟨(ih.2 hne).1, (ih.2 hne).1⟩
    | checkpoint c h hc =>
      refine ⟨fun hcon => by simp at hcon, fun _ => ?_⟩
      have hlt : c < 100 := by
        rcases hc with hc | hc <;> simp [transcription_checkpoints, risk_checkpoints] at hc <;>
          rcases hc with rfl | rfl | rfl | rfl | rfl <;> norm_num
      exact ⟨hlt, hlt⟩
    | loop_write e m h hcond =>
      refine ⟨fun hcon => by simp at hcon, fun _ => ?_⟩
      have hne := hne_of h (by simp)
      refine ⟨lt_of_le_of_lt (min_le_right _ _) (by norm_num), (ih.2 hne).2⟩
    | complete h =>
      exact ⟨fun _ => rfl, fun hc => absurd rfl hc⟩
    | fail_supervisor h =>
      refine ⟨fun hc => by simp at hc, fun _ => ?_⟩
      have hne := hne_of h (by simp)
      exact ⟨(ih.2 hne).2, (ih.2 hne).2⟩
    | fail_stale h =>
      refine ⟨fun hc => by simp at hc, fun _ => ?_⟩
      have hne := hne_of h (by simp)
      exact ih.2 hne
    | demote_recovery h =>
      refine ⟨fun hc => by simp at hc, fun _ => ?_⟩
      have hne := hne_of h (by simp)
      exact ih.2 hne

/-- C6: in every reachable task state, the persisted progress equals 100
exactly when the status is Completed — every transition to Completed writes
progress 100, and no Pending, Processing, Failed or Cancelled record is
ever persisted with progress 100 (the staged checkpoints stop at 95 and the
loop progress is capped at 90). -/
theorem progress_hundred_iff_completed {s : TaskState} (h : ReachableTaskState s) :
    s.persisted = 100 ↔ s.status = TaskStatus.Completed := by
  have hinv := reachable_strong_inv h
  constructor
  · intro hp
    by_contra hc
    have := (hinv.2 hc).1
    rw [hp] at this
    exact absurd this (by norm_num)
  · exact hinv.1

/-- C6 witness: the invariant applied to the initial Pending state, and to
the Completed state reached by dispatching and completing it. -/
theorem progress_hundred_iff_completed_witness :
    ((⟨TaskStatus.Pending, 0, 0⟩ : TaskState).persisted = 100 ↔
      (⟨TaskStatus.Pending, 0, 0⟩ : TaskState).status = TaskStatus.Completed) ∧
    ((⟨TaskStatus.Completed, 100, 100⟩ : TaskState).persisted = 100 ↔
      (⟨TaskStatus.Completed, 100, 100⟩ : TaskState).status = TaskStatus.Completed) :=
  ⟨progress_hundred_iff_completed ReachableTaskState.init,
    progress_hundred_iff_completed
      (ReachableTaskState.step
        (ReachableTaskState.step ReachableTaskState.init
          (Step.dispatch _ rfl))
        (Step.complete _ rfl))⟩

/-- C9: no reachable task state has status Cancelled, and no single
transition of the system produces a Cancelled status: the value is defined
but no operation ever writes it. -/
theorem no_transition_to_cancelled {s : TaskState} (h : ReachableTaskState s) :
    s.status ≠ TaskStatus.Cancelled ∧
    (∀ t, Step s t → t.status ≠ TaskStatus.Cancelled) := by
  refine ⟨?_, fun t hst => by cases hst <;> simp⟩
  induction h with
  | init => simp
  | step hs hst ih => cases hst <;> simp

/-- C9 witness: the theorem applied to the initial state. -/
theorem no_transition_to_cancelled_witness :
    (⟨TaskStatus.Pending, 0, 0⟩ : TaskState).status ≠ TaskStatus.Cancelled :=
  (no_transition_to_cancelled ReachableTaskState.init).1

/-! # Claim C7 — progress monotonicity -/

theorem loop_progress_ge (e m : ℕ) : 35 ≤ loop_progress e m := by
  unfold loop_progress
  refine le_min ?_ (by norm_num)
  have h1 : (0 : ℚ) ≤ (e : ℚ) / (m : ℚ) * 50 := by positivity
  linarith

theorem loop_progress_le (e m : ℕ) : loop_progress e m ≤ 90 := min_le_right _ _

theorem loop_progress_mono {e e' : ℕ} (m : ℕ) (h : e ≤ e') :
    loop_progress e m ≤ loop_progress e' m := by
  unfold loop_progress
  refine min_le_min ?_ le_rfl
  have hd : (e : ℚ) / (m : ℚ) ≤ (e' : ℚ) / (m : ℚ) := by
    rcases Nat.eq_zero_or_pos m with rfl | hm
    · simp
    · have hm' : (0 : ℚ) < (m : ℚ) := by exact_mod_cast hm
      exact (div_le_div_iff_of_pos_right hm').mpr (by exact_mod_cast h)
  nlinarith

theorem chain'_loop_writes_upto (m k : ℕ) :
    List.Chain' (· ≤ ·) (loop_writes_upto m k) := by
  unfold loop_writes_upto loop_elapsed_ticks
  refine List.Pairwise.chain' ?_
  refine List.Pairwise.map _ (fun a b (h : a < b) => loop_progress_mono m (le_of_lt h)) ?_
  refine List.Pairwise.filter _ ?_
  refine List.Pairwise.map _ (fun a b (h : a < b) => ?_) (List.pairwise_lt_range k)
  omega

theorem mem_loop_writes_upto {m k : ℕ} {x : ℚ} (hx : x ∈ loop_writes_upto m k) :
    35 ≤ x ∧ x ≤ 90 := by
  unfold loop_writes_upto at hx
  rcases List.mem_map.mp hx with ⟨e, _, rfl⟩
  exact ⟨loop_progress_ge e m, loop_progress_le e m⟩

/-- C7 counterexample.  The claim says no operation ever writes a progress
value lower than the task's current progress, explicitly including
re-dispatch after restart.  Take a transcription task (budget 300 s) whose
process crashes right after the fourth staged checkpoint (persisted
progress 30); recovery demotes it to Pending with progress unchanged, and
the re-dispatched execution immediately writes the first staged checkpoint,
5 — lower than 30.  The full persisted progress trace is
0,5,10,20,30,5,10,20,30,95,100, which is not monotone. -/
theorem progress_monotone_claim_counterexample :
    restart_lifetime_writes 300 4 300 0 = [0, 5, 10, 20, 30, 5, 10, 20, 30, 95, 100] ∧
    ¬ List.Chain' (· ≤ ·) (restart_lifetime_writes 300 4 300 0) := by
  have h1 : (transcription_pre_terminal_writes 300).take 4 = [5, 10, 20, 30] := by
    unfold transcription_pre_terminal_writes
    rw [show (4 : ℕ) = ([5, 10, 20, 30] : List ℚ).length from rfl, List.take_left]
  have heq : restart_lifetime_writes 300 4 300 0
      = [0, 5, 10, 20, 30, 5, 10, 20, 30, 95, 100] := by
    unfold restart_lifetime_writes transcription_success_writes
    rw [h1]
    simp [loop_writes_upto, loop_elapsed_ticks]
  refine ⟨heq, ?_⟩
  rw [heq]
  intro h
  simp only [List.chain'_cons, List.chain'_singleton, and_true] at h
  have h30 := h.2.2.2.2.1
  norm_num at h30

/-- C7 (amended): the persisted progress sequence is monotonically
non-decreasing within a single uninterrupted execution that completes
successfully (starting from the initial progress 0): the staged checkpoints
5, 10, 20, 30, the throttled loop writes (each between 35 and 90 and
non-decreasing in elapsed time), then 95 and the final 100.  A timed-out
execution's terminal Failed write re-persists the supervisor's local
checkpoint 30, and a re-dispatched recovered task restarts the staging at
5, so monotonicity does not extend across timeouts or restarts. -/
theorem progress_monotone_amended (m k : ℕ) :
    List.Chain' (· ≤ ·) ((0 : ℚ) :: transcription_success_writes m k) := by
  show List.Chain' (· ≤ ·)
    (([0, 5, 10, 20, 30] : List ℚ) ++ (loop_writes_upto m k ++ [95, 100]))
  have h1 : List.Chain' (· ≤ ·) ([0, 5, 10, 20, 30] : List ℚ) := by
    simp only [List.chain'_cons, List.chain'_singleton, and_true]
    norm_num
  have h3 : List.Chain' (· ≤ ·) ([95, 100] : List ℚ) := by
    simp only [List.chain'_cons, List.chain'_singleton, and_true]
    norm_num
  have link23 : ∀ x ∈ (loop_writes_upto m k).getLast?,
      ∀ y ∈ ([95, 100] : List ℚ).head?, x ≤ y := by
    intro x hx y hy
    simp only [List.head?_cons, Option.mem_def, Option.some.injEq] at hy
    subst hy
    have := List.mem_of_mem_getLast? hx
    exact le_trans (mem_loop_writes_upto this).2 (by norm_num)
  have link1 : ∀ x ∈ ([0, 5, 10, 20, 30] : List ℚ).getLast?,
      ∀ y ∈ (loop_writes_upto m k ++ [95, 100]).head?, x ≤ y := by
    intro x hx y hy
    have hx30 : x = 30 := by
      simp only [List.getLast?_cons_cons, List.getLast?_singleton,
        Option.mem_def, Option.some.injEq] at hx
      exact hx.symm
    subst hx30
    cases hlw : loop_writes_upto m k with
    | nil =>
      rw [hlw] at hy
      simp only [List.nil_append, List.head?_cons, Option.mem_def,
        Option.some.injEq] at hy
      subst hy
      norm_num
    | cons a as =>
      rw [hlw] at hy
      simp only [List.cons_append, List.head?_cons, Option.mem_def,
        Option.some.injEq] at hy
      subst hy
      have ha : a ∈ loop_writes_upto m k := by
        rw [hlw]
        exact List.mem_cons_self _ _
      exact le_trans (by norm_num) (mem_loop_writes_upto ha).1
  exact List.Chain'.append h1
    (List.Chain'.append (chain'_loop_writes_upto m k) h3 link23) link1

/-! # Claim C8 — stale reaping frame property -/

theorem is_stale_iff (now : Int) (t : TaskResult) :
    is_stale now t = true ↔
      (t.status = TaskStatus.Processing ∧
        ∃ s, t.started_at = some s ∧ 3600 < now - s) := by
  unfold is_stale
  cases h : t.started_at with
  | none => simp [h]
  | some s => simp [h]

/-- C8: stale cleanup preserves the cache's shape, and entry by entry it
turns every task that is Processing with `started_at` more than one hour
before `now` into Failed with the fixed error
"Task timed out and was cleaned up", `completed_at` and `updated_at` set to
`now`, leaving every other task exactly unchanged. -/
theorem cleanup_stale_frame (now : Int) (cache : List TaskResult) :
    (cleanup_stale_tasks now cache).1.length = cache.length ∧
    List.Forall₂ (fun t u =>
      (t.status = TaskStatus.Processing ∧
          (∃ s, t.started_at = some s ∧ 3600 < now - s) →
        u = { t with
              status := TaskStatus.Failed,
              error := some "Task timed out and was cleaned up",
              completed_at := some now, updated_at := now }) ∧
      (¬ (t.status = TaskStatus.Processing ∧
          (∃ s, t.started_at = some s ∧ 3600 < now - s)) →
        u = t)) cache (cleanup_stale_tasks now cache).1 := by
  constructor
  · simp [cleanup_stale_tasks]
  · unfold cleanup_stale_tasks
    dsimp only
    induction cache with
    | nil => exact List.Forall₂.nil
    | cons t ts ih =>
      rw [List.map_cons]
      refine List.Forall₂.cons ⟨?_, ?_⟩ ih
      · intro hp
        rw [if_pos ((is_stale_iff now t).mpr hp)]
        rfl
      · intro hp
        rw [if_neg]
        intro hb
        exact hp ((is_stale_iff now t).mp hb)

/-! # Claim C10 — queue statistics -/

theorem status_counts_foldl (l : List TaskResult) (a b c d : ℕ) :
    l.foldl status_count_step (a, b, c, d) =
      (a + (l.filter (fun t => decide (t.status = TaskStatus.Pending))).length,
       b + (l.filter (fun t => decide (t.status = TaskStatus.Processing))).length,
       c + (l.filter (fun t => decide (t.status = TaskStatus.Completed))).length,
       d + (l.filter (fun t => decide (t.status = TaskStatus.Failed ∨
            t.status = TaskStatus.Cancelled))).length) := by
  induction l generalizing a b c d with
  | nil => simp
  | cons t ts ih =>
    rw [List.foldl_cons]
    cases hs : t.status <;>
      simp [status_count_step, hs, ih, List.filter_cons, Prod.ext_iff] <;> omega

/-- C10: `GetStats` returns `pending_count` equal to the number of cached
Pending results *plus* the queue depth (a task Pending in the cache and
still queued is counted twice), counts Cancelled tasks into `failed_count`,
and returns `total_tasks` equal to the cache size. -/
theorem queue_stats_spec (cache : List TaskResult) (queue : List (String × ℕ)) :
    (get_queue_stats_internal cache queue).pending_count =
      (cache.filter (fun t => t.status = TaskStatus.Pending)).length + queue.length ∧
    (get_queue_stats_internal cache queue).processing_count =
      (cache.filter (fun t => t.status = TaskStatus.Processing)).length ∧
    (get_queue_stats_internal cache queue).completed_count =
      (cache.filter (fun t => t.status = TaskStatus.Completed)).length ∧
    (get_queue_stats_internal cache queue).failed_count =
      (cache.filter (fun t => t.status = TaskStatus.Failed ∨
        t.status = TaskStatus.Cancelled)).length ∧
    (get_queue_stats_internal cache queue).total_tasks = cache.length := by
  unfold get_queue_stats_internal
  rw [status_counts_foldl]
  refine ⟨by simp, by simp, by simp, by simp, rfl⟩

end WhisperQueue
